import Mathlib

/-
Verification of the core logic of `src/my_app.py` (jackhughesh1996/cell-ebration):
the JSON-substring extraction used on AI responses, the .docx placeholder
replacement and section-injection helpers, the persisted usage ledger, and the
Gemini call wrapper.  Python strings are modelled as `List Char`; the python-docx
document is modelled as a list of paragraphs plus nested tables of paragraphs.
-/

set_option autoImplicit false

abbrev Str := List Char

/-- Python `needle in hay` (substring containment), as used in guards such as
`if find_str in para.text`. -/
def strContains (hay needle : Str) : Bool :=
  (List.range (hay.length + 1)).any fun i => needle.isPrefixOf (hay.drop i)

/-- Helper for Python `str.find`: index of the first occurrence of `c` in the
list, or `-1` when absent. -/
def pyFindAux (c : Char) : Str → Int
  | [] => -1
  | x :: rest =>
    if x = c then 0
    else
      let r := pyFindAux c rest
      if r = -1 then -1 else r + 1

/-- Python `hay.find(c)` for a single character. -/
def pyFind (hay : Str) (c : Char) : Int :=
  pyFindAux c hay

/-- Python `hay.rfind(c)` for a single character: the largest index holding `c`,
or `-1` when absent. -/
def pyRfind (hay : Str) (c : Char) : Int :=
  let r := pyFindAux c hay.reverse
  if r = -1 then -1 else (hay.length : Int) - 1 - r

/-- Python slice `hay[s:e]` for the index values produced by the extraction code
(`s` is a found index, hence nonnegative; `e` is `rfind + 1`, hence nonnegative). -/
def pySlice (hay : Str) (s e : Int) : Str :=
  (hay.drop s.toNat).take (e - s).toNat

/-- Models `main`, lines 470-475 (and the identical lines 592-597):
`json_start = response.find(...)` for the opening brace,
`json_end = response.rfind(...) + 1` for the closing brace; the code raises
`json.JSONDecodeError` when `json_start == -1 or json_end == -1`, otherwise it
takes `response[json_start:json_end]`, the text handed to `json.loads`.
`none` models the raised error. -/
def extractJsonCandidate (response : Str) : Option Str :=
  let json_start := pyFind response '{'
  let json_end := pyRfind response '}' + 1
  if json_start = -1 ∨ json_end = -1 then none
  else some (pySlice response json_start json_end)

/-- Depth tracking for a balanced, single, top-level JSON-style object: after
the opening brace the depth stays positive and returns to zero exactly at the
final character.  Used only to state hypotheses about inputs ("balanced JSON
object" in the spec's words, read brace-wise). -/
def balAux : Str → Nat → Bool
  | [], _ => false
  | c :: rest, d =>
    if c = '{' then balAux rest (d + 1)
    else if c = '}' then
      if d = 0 then false
      else if d = 1 then rest.isEmpty
      else balAux rest (d - 1)
    else if d = 0 then false
    else balAux rest d

/-- A balanced single top-level JSON object, brace-wise: opens with a brace and
the brace depth returns to zero exactly at the final character. -/
def isBalancedJsonObject (s : Str) : Bool :=
  match s with
  | [] => false
  | c :: rest => if c = '{' then balAux rest 1 else false

/-- All contiguous subsegments of a list (with duplicates). -/
def subsegments (l : Str) : List Str :=
  (List.range (l.length + 1)).flatMap fun i =>
    (List.range (l.length + 1)).map fun n => (l.drop i).take n

/-- The balanced-JSON-object subsegments of a text, used to state "the input
text contains exactly one balanced JSON object". -/
def balancedObjectSubsegs (l : Str) : List Str :=
  (subsegments l).filter isBalancedJsonObject

/-- Paragraph alignment; only `WD_ALIGN_PARAGRAPH.CENTER` is ever assigned by
the code. -/
inductive Align
  | CENTER
deriving DecidableEq

/-- A python-docx paragraph, reduced to the attributes the code reads or
writes: its full text (python-docx concatenates the runs), its alignment, and
its style name. -/
structure Para where
  text : Str
  alignment : Option Align
  style : Option Str
deriving DecidableEq

structure Cell where
  paragraphs : List Para
deriving DecidableEq

structure Row where
  cells : List Cell
deriving DecidableEq

structure Table where
  rows : List Row
deriving DecidableEq

/-- A python-docx `Document`: top-level paragraphs plus tables of nested
cell paragraphs. -/
structure Doc where
  paragraphs : List Para
  tables : List Table
deriving DecidableEq

/-- A plain paragraph with the given text (as produced by `doc.add_paragraph`). -/
def mkPara (t : Str) : Para :=
  { text := t, alignment := none, style := none }

/-- Builds the literal placeholder token: two opening braces, the name, two
closing braces. -/
def braced (name : Str) : Str :=
  '{' :: '{' :: (name ++ ['}', '}'])

def MCQ_ANCHOR : Str := braced "MCQ_SECTION".toList

def SAQ_ANCHOR : Str := braced "SAQ_SECTION".toList

/-- The title placeholders checked inside `find_and_replace` (line 215). -/
def TITLE_PLACEHOLDERS : List Str :=
  [braced "SUBJECT_TITLE".toList, braced "UNIT_TITLE".toList, braced "YEAR".toList]

/-- The title placeholders checked in `main`'s substitution loop (line 508),
including the tolerated spelling variants. -/
def MAIN_TITLE_PLACEHOLDERS : List Str :=
  [braced "SUBJECT_TITLE".toList, braced "UNIT_TITLE".toList, braced "YEAR".toList,
   braced "SUBJECT TITLE".toList, braced "Unit_Title".toList]

/-- Fuel-indexed body of Python `hay.replace(needle, repl)` for a nonempty
`needle` (every needle in the code is a literal placeholder token): scan left
to right, replacing each non-overlapping occurrence.  The fuel is always
instantiated with `hay.length`, which suffices for the scan. -/
def pyReplaceFuel (needle repl : Str) : Nat → Str → Str
  | _, [] => []
  | 0, hay => hay
  | fuel + 1, c :: rest =>
    if needle ≠ [] ∧ needle.isPrefixOf (c :: rest) then
      repl ++ pyReplaceFuel needle repl fuel ((c :: rest).drop needle.length)
    else
      c :: pyReplaceFuel needle repl fuel rest

/-- Python `hay.replace(needle, repl)` for the nonempty needles used here. -/
def pyReplace (needle repl hay : Str) : Str :=
  pyReplaceFuel needle repl hay.length hay

/-- One body paragraph of `find_and_replace` (lines 211-216): replace the text
when the needle occurs, and re-apply centered alignment when the needle is a
title placeholder. -/
def replaceParaBody (find_str replace_str : Str) (para : Para) : Para :=
  if strContains para.text find_str then
    { para with
      text := pyReplace find_str replace_str para.text,
      alignment :=
        if find_str ∈ TITLE_PLACEHOLDERS then some Align.CENTER
        else para.alignment }
  else para

/-- One table-cell paragraph of `find_and_replace` (lines 218-223): replace
the text when the needle occurs; alignment is not touched there. -/
def replaceParaCell (find_str replace_str : Str) (para : Para) : Para :=
  if strContains para.text find_str then
    { para with text := pyReplace find_str replace_str para.text }
  else para

/-- Models `find_and_replace` (lines 209-223): replaces `find_str` by
`replace_str` in every top-level paragraph and every table-cell paragraph. -/
def find_and_replace (doc : Doc) (find_str replace_str : Str) : Doc :=
  { paragraphs := doc.paragraphs.map (replaceParaBody find_str replace_str),
    tables := doc.tables.map fun t =>
      { rows := t.rows.map fun r =>
        { cells := r.cells.map fun c =>
          { paragraphs := c.paragraphs.map (replaceParaCell find_str replace_str) } } } }

/-- One replacement step of `main`'s substitution loop over a body paragraph
(lines 504-509): like `find_and_replace` but with the five-key title list. -/
def mainReplaceStep (p : Para) (kv : Str × Str) : Para :=
  if strContains p.text kv.1 then
    { p with
      text := pyReplace kv.1 kv.2 p.text,
      alignment :=
        if kv.1 ∈ MAIN_TITLE_PLACEHOLDERS then some Align.CENTER
        else p.alignment }
  else p

/-- The inner `for key, value in replacements.items()` loop of `main` over one
body paragraph (dict iteration follows the literal's insertion order). -/
def mainReplacePara (replacements : List (Str × Str)) (p : Para) : Para :=
  replacements.foldl mainReplaceStep p

/-- One replacement step of `main`'s table loop over a cell paragraph
(lines 511-517): text replacement only, alignment untouched. -/
def mainReplaceCellStep (p : Para) (kv : Str × Str) : Para :=
  if strContains p.text kv.1 then
    { p with text := pyReplace kv.1 kv.2 p.text }
  else p

def mainReplaceCellPara (replacements : List (Str × Str)) (p : Para) : Para :=
  replacements.foldl mainReplaceCellStep p

/-- Models `main`'s placeholder-substitution pass (lines 504-517) over a whole
document. -/
def substitute_placeholders (replacements : List (Str × Str)) (doc : Doc) : Doc :=
  { paragraphs := doc.paragraphs.map (mainReplacePara replacements),
    tables := doc.tables.map fun t =>
      { rows := t.rows.map fun r =>
        { cells := r.cells.map fun c =>
          { paragraphs := c.paragraphs.map (mainReplaceCellPara replacements) } } } }

/-- The nested alignments of all table-cell paragraphs of a document. -/
def tableAlignments (doc : Doc) : List (List (List (List (Option Align)))) :=
  doc.tables.map fun t => t.rows.map fun r => r.cells.map fun c =>
    c.paragraphs.map fun p => p.alignment

/-- A multiple-choice item as read from the parsed JSON: `question_text` and
`options` (the code reads them with `q_data.get`). -/
structure McqItem where
  question_text : Str
  options : List Str
deriving DecidableEq

/-- A short-answer item as read from the parsed JSON: `question_text` and the
integer `marks` value. -/
structure SaqItem where
  question_text : Str
  marks : Int
deriving DecidableEq

/-- The `for para in doc.paragraphs` scan shared by `inject_mcq_questions` and
`inject_saq_questions`: on the first paragraph containing the anchor, clear its
text in place (`para.text = ""`) and stop; `none` when no paragraph contains
the anchor. -/
def findAnchorClear (anchor : Str) : List Para → Option (List Para)
  | [] => none
  | p :: ps =>
    if strContains p.text anchor then some ({ p with text := [] } :: ps)
    else (findAnchorClear anchor ps).map (p :: ·)

def mcqSectionHeader : Para :=
  mkPara "SECTION A – Multiple-Choice Questions".toList

def mcqInstructions : Para :=
  mkPara "Answer all questions by selecting the correct option.".toList

/-- The question paragraph of MCQ number `i+1`: a bold run with the text
`Question` followed by the number and a newline, then a run with the question
text (python-docx concatenates the runs). -/
def mcqQuestionPara (i : Nat) (q : McqItem) : Para :=
  mkPara ("Question ".toList ++ (Nat.repr (i + 1)).toList ++ '\n' :: q.question_text)

/-- An option line, added with `style='List Paragraph'`. -/
def optionPara (opt : Str) : Para :=
  { text := opt, alignment := none, style := some "List Paragraph".toList }

/-- The paragraphs appended for one MCQ (lines 237-246): a spacer paragraph,
the question paragraph, then one paragraph per option in the original order. -/
def mcqBlock (i : Nat) (q : McqItem) : List Para :=
  mkPara [] :: mcqQuestionPara i q :: q.options.map optionPara

/-- Everything `inject_mcq_questions` appends at the end of the document. -/
def mcqInjection (mcqs : List McqItem) : List Para :=
  mcqSectionHeader :: mcqInstructions ::
    (mcqs.enum.flatMap fun iq => mcqBlock iq.1 iq.2)

/-- Models `inject_mcq_questions` (lines 225-248): find the first paragraph
holding the MCQ anchor, clear it, append the section; `false` when the anchor
is absent (the document is then left unchanged). -/
def inject_mcq_questions (doc : Doc) (mcqs : List McqItem) : Doc × Bool :=
  match findAnchorClear MCQ_ANCHOR doc.paragraphs with
  | some ps => ({ doc with paragraphs := ps ++ mcqInjection mcqs }, true)
  | none => (doc, false)

def saqSectionHeader : Para :=
  mkPara "SECTION B – Short-Answer Questions".toList

def saqInstructions : Para :=
  mkPara "Answer all questions in the spaces provided.".toList

/-- The question paragraph of SAQ number `i+1`, including the marks tag with
its plural form, then the question text. -/
def saqQuestionPara (i : Nat) (q : SaqItem) : Para :=
  mkPara ("Question ".toList ++ (Nat.repr (i + 1)).toList
    ++ " (".toList ++ (toString q.marks).toList ++ " mark".toList
    ++ (if q.marks > 1 then ['s'] else []) ++ ')' :: '\n' :: q.question_text)

/-- The blank answer-rule line added `marks * 3` times per SAQ (line 274). -/
def BLANK_LINE : Str :=
  "_________________________________________________________________".toList

/-- The paragraphs appended for one SAQ (lines 262-274): a spacer paragraph,
the question paragraph, then `marks * 3` blank-rule lines
(`range(marks * 3)` yields nothing for a nonpositive count). -/
def saqBlock (i : Nat) (q : SaqItem) : List Para :=
  mkPara [] :: saqQuestionPara i q ::
    List.replicate (q.marks * 3).toNat (mkPara BLANK_LINE)

/-- Everything `inject_saq_questions` appends at the end of the document. -/
def saqInjection (saqs : List SaqItem) : List Para :=
  saqSectionHeader :: saqInstructions ::
    (saqs.enum.flatMap fun iq => saqBlock iq.1 iq.2)

/-- Models `inject_saq_questions` (lines 250-277). -/
def inject_saq_questions (doc : Doc) (saqs : List SaqItem) : Doc × Bool :=
  match findAnchorClear SAQ_ANCHOR doc.paragraphs with
  | some ps => ({ doc with paragraphs := ps ++ saqInjection saqs }, true)
  | none => (doc, false)

/-- The usage ledger JSON as stored on disk: an optional `date` string, an
optional `counts` mapping, and the optional legacy `count` field. -/
structure StoredUsage where
  date : Option Str
  counts : Option (List (Str × Int))
  count : Option Int
deriving DecidableEq

/-- The state of a persisted JSON file: absent, present but not parseable
(`json.JSONDecodeError`), or parsed data. -/
inductive UsageFile
  | absent
  | corrupt
  | stored (data : StoredUsage)
deriving DecidableEq

def USAGE_FILENAME : Str := "usage.json".toList

/-- Models `DEFAULT_USAGE` (lines 195-202); its date is `str(date.today())`
evaluated when the module loads. -/
def DEFAULT_USAGE (module_load_date : Str) : StoredUsage :=
  { date := some module_load_date,
    counts := some [("gemini-2.5-flash-lite".toList, 0),
                    ("gemini-2.5-flash".toList, 0),
                    ("gemini-2.5-pro".toList, 0)],
    count := none }

/-- Models `load_from_file` (lines 16-50).  `today_str = str(date.today())` is
passed in; the second component lists the `save_to_file` writes performed, in
order, as filename-content pairs.  An absent file is recreated with the
defaults; a stored usage file whose date differs from today is reset to the
defaults and persisted; a stored usage file in the legacy one-counter format is
migrated; a corrupt file (`json.JSONDecodeError`) is recreated with the
defaults. -/
def load_from_file (filename : Str) (today_str : Str) (default_data : StoredUsage)
    (file : UsageFile) : StoredUsage × List (Str × StoredUsage) :=
  match file with
  | .absent => (default_data, [(filename, default_data)])
  | .corrupt => (default_data, [(filename, default_data)])
  | .stored data =>
    if filename = USAGE_FILENAME ∧ data.date ≠ some today_str then
      (default_data, [(filename, default_data)])
    else if filename = USAGE_FILENAME ∧ data.count.isSome ∧ data.counts = none then
      let new_data : StoredUsage :=
        { date := some (data.date.getD today_str),
          counts := some [("total_legacy_calls".toList, data.count.getD 0)],
          count := none }
      (new_data, [(filename, new_data)])
    else (data, [])

/-- Outcome of the external Gemini call (`generate_content` /
`chat.send_message`): either the response text or a raised provider error. -/
inductive ProviderOutcome
  | ok (text : Str)
  | error
deriving DecidableEq

/-- Python dict lookup on the counts mapping. -/
def lookupCount : List (Str × Int) → Str → Option Int
  | [], _ => none
  | (k, v) :: rest, m => if k = m then some v else lookupCount rest m

/-- Python dict assignment `counts[m] = v`: overwrite in place, or append a new
entry at the end. -/
def setCount : List (Str × Int) → Str → Int → List (Str × Int)
  | [], m, v => [(m, v)]
  | (k, x) :: rest, m, v =>
    if k = m then (m, v) :: rest else (k, x) :: setCount rest m v

/-- Models `call_gemini_api` (lines 65-102).  With no API key the function
errors out before calling the provider.  Otherwise the provider call either
raises (caught by the `except`, returning `None` with the counts untouched and
nothing written) or returns text, after which the counter for `model_name` is
created at zero if missing, incremented, and the ledger is written to disk
immediately.  Result: the returned text, the updated counts, and the list of
ledger writes performed. -/
def call_gemini_api (api_key : Option Str) (outcome : ProviderOutcome)
    (model_name : Str) (counts : List (Str × Int)) :
    Option Str × List (Str × Int) × List (List (Str × Int)) :=
  match api_key with
  | none => (none, counts, [])
  | some _ =>
    match outcome with
    | .error => (none, counts, [])
    | .ok text =>
      let counts1 :=
        if (lookupCount counts model_name).isSome then counts
        else counts ++ [(model_name, 0)]
      let counts2 :=
        setCount counts1 model_name ((lookupCount counts1 model_name).getD 0 + 1)
      (some text, counts2, [counts2])

theorem pyFindAux_eq_neg_one {c : Char} {l : Str} (h : c ∉ l) :
    pyFindAux c l = -1 := by
  induction l with
  | nil => rfl
  | cons x rest ih =>
    have hx : x ≠ c := by
      intro hxc
      exact h (hxc ▸ List.mem_cons_self x rest)
    have hr : pyFindAux c rest = -1 := ih (fun hm => h (List.mem_cons_of_mem x hm))
    simp [pyFindAux, hx, hr]

theorem pyFindAux_append {c : Char} {p : Str} (t : Str) (h : c ∉ p) :
    pyFindAux c (p ++ c :: t) = (p.length : Int) := by
  induction p with
  | nil => simp [pyFindAux]
  | cons x rest ih =>
    have hx : x ≠ c := by
      intro hxc
      exact h (hxc ▸ List.mem_cons_self x rest)
    have hr : pyFindAux c (rest ++ c :: t) = (rest.length : Int) :=
      ih (fun hm => h (List.mem_cons_of_mem x hm))
    have hge : (0 : Int) ≤ (rest.length : Int) := Int.natCast_nonneg _
    have hne : (rest.length : Int) ≠ -1 := by omega
    simp [pyFindAux, hx, hr, hne]

theorem balAux_ends_close {t : Str} :
    ∀ {d : Nat}, balAux t d = true → ∃ t₀, t = t₀ ++ ['}'] := by
  induction t with
  | nil => intro d h; simp [balAux] at h
  | cons c rest ih =>
    intro d h
    by_cases hc : c = '{'
    · subst hc
      simp only [balAux, if_pos rfl] at h
      obtain ⟨t₀, ht⟩ := ih h
      exact ⟨'{' :: t₀, by simp [ht]⟩
    · by_cases hc2 : c = '}'
      · subst hc2
        simp only [balAux, if_neg (by decide : ('}' : Char) ≠ '{'), if_pos rfl] at h
        by_cases hd0 : d = 0
        · simp [hd0] at h
        · by_cases hd1 : d = 1
          · simp [hd0, hd1, List.isEmpty_iff] at h
            exact ⟨[], by simp [h]⟩
          · simp only [if_neg hd0, if_neg hd1] at h
            obtain ⟨t₀, ht⟩ := ih h
            exact ⟨'}' :: t₀, by simp [ht]⟩
      · simp only [balAux, if_neg hc, if_neg hc2] at h
        by_cases hd0 : d = 0
        · simp [hd0] at h
        · simp only [if_neg hd0] at h
          obtain ⟨t₀, ht⟩ := ih h
          exact ⟨c :: t₀, by simp [ht]⟩

theorem isBalancedJsonObject_shape {j : Str} (h : isBalancedJsonObject j = true) :
    ∃ core, j = ('{' :: core) ++ ['}'] := by
  cases j with
  | nil => simp [isBalancedJsonObject] at h
  | cons c rest =>
    by_cases hc : c = '{'
    · subst hc
      have hb : balAux rest 1 = true := by
        simpa [isBalancedJsonObject] using h
      obtain ⟨t₀, ht⟩ := balAux_ends_close hb
      exact ⟨t₀, by simp [ht]⟩
    · exfalso
      simp [isBalancedJsonObject, hc] at h

/-- C1 fails as stated: the three-character input consisting of an opening
brace followed by two closing braces contains exactly one balanced JSON object
(the first two characters), yet the extraction takes the substring from the
first opening brace to the last closing brace, producing the whole three-
character text rather than that object. -/
theorem C1_counterexample :
    balancedObjectSubsegs ['{', '}', '}'] = [['{', '}']] ∧
    extractJsonCandidate ['{', '}', '}'] = some ['{', '}', '}'] ∧
    some (['{', '}', '}'] : Str) ≠ some (['{', '}'] : Str) := by
  refine ⟨by decide, by decide, by decide⟩

/-- C1 (amended): for input text of the form prose-prefix, balanced JSON
object, prose-suffix, where the prefix contains no opening brace and the
suffix contains no closing brace, the extraction (first opening brace through
last closing brace) returns exactly the object's text, hence `json.loads`
receives that object with content unchanged. -/
theorem C1_extraction_returns_object (p j s : Str)
    (hp : '{' ∉ p) (hs : '}' ∉ s) (hj : isBalancedJsonObject j = true) :
    extractJsonCandidate (p ++ j ++ s) = some j := by
  obtain ⟨core, rfl⟩ := isBalancedJsonObject_shape hj
  set j := ('{' :: core) ++ ['}'] with hjdef
  have hfind : pyFind (p ++ j ++ s) '{' = (p.length : Int) := by
    have : p ++ j ++ s = p ++ '{' :: (core ++ ['}'] ++ s) := by
      simp [hjdef]
    rw [pyFind, this]
    exact pyFindAux_append _ hp
  have hrev : (p ++ j ++ s).reverse
      = s.reverse ++ '}' :: (core.reverse ++ ('{' :: p.reverse).reverse.reverse) := by
    simp [hjdef]
  have hsrev : '}' ∉ s.reverse := by
    intro hm
    exact hs (List.mem_reverse.mp hm)
  have hrfind : pyRfind (p ++ j ++ s) '}'
      = (p.length : Int) + (j.length : Int) - 1 := by
    rw [pyRfind]
    have hrev2 : (p ++ j ++ s).reverse
        = s.reverse ++ '}' :: (core.reverse ++ '{' :: p.reverse) := by
      simp [hjdef]
    rw [hrev2, pyFindAux_append _ hsrev]
    have hne : ((s.reverse.length : Int)) ≠ -1 := by
      have : (0 : Int) ≤ (s.reverse.length : Int) := Int.natCast_nonneg _
      omega
    rw [if_neg hne]
    have hlen : ((p ++ j ++ s).length : Int)
        = (p.length : Int) + (j.length : Int) + (s.length : Int) := by
      push_cast [List.length_append]
      ring
    rw [hlen]
    simp
    ring
  have hjlen : 1 ≤ j.length := by
    simp [hjdef]
  rw [extractJsonCandidate]
  have hstart_ne : pyFind (p ++ j ++ s) '{' ≠ -1 := by
    rw [hfind]
    have : (0 : Int) ≤ (p.length : Int) := Int.natCast_nonneg _
    omega
  have hend_ne : pyRfind (p ++ j ++ s) '}' + 1 ≠ -1 := by
    rw [hrfind]
    have h1 : (0 : Int) ≤ (p.length : Int) := Int.natCast_nonneg _
    have h2 : (1 : Int) ≤ (j.length : Int) := by exact_mod_cast hjlen
    omega
  rw [if_neg (by
    push_neg
    exact ⟨hstart_ne, hend_ne⟩)]
  congr 1
  rw [hfind, hrfind, pySlice]
  have h2 : (1 : Int) ≤ (j.length : Int) := by exact_mod_cast hjlen
  have hs_toNat : ((p.length : Int)).toNat = p.length := Int.toNat_natCast _
  have he_toNat : ((p.length : Int) + (j.length : Int) - 1 + 1 - (p.length : Int)).toNat
      = j.length := by
    omega
  rw [hs_toNat, he_toNat]
  have hdrop : (p ++ j ++ s).drop p.length = j ++ s := by
    rw [List.append_assoc]
    exact List.drop_left p (j ++ s)
  rw [hdrop]
  exact List.take_left j s

/-- Witness for the amended C1 at a concrete input. -/
theorem C1_extraction_returns_object_witness :
    extractJsonCandidate (['a'] ++ ['{', '}'] ++ ['b']) = some ['{', '}'] :=
  C1_extraction_returns_object ['a'] ['{', '}'] ['b']
    (by decide) (by decide) (by decide)

/-- C7: for input text containing neither an opening nor a closing brace, the
extraction raises (`find` returns `-1`, triggering the explicit
`json.JSONDecodeError`), and no data is returned. -/
theorem C7_extraction_fails_without_braces (t : Str)
    (h1 : '{' ∉ t) (h2 : '}' ∉ t) :
    extractJsonCandidate t = none := by
  have hfind : pyFind t '{' = -1 := pyFindAux_eq_neg_one h1
  rw [extractJsonCandidate]
  rw [if_pos (Or.inl hfind)]

/-- Witness for C7 at a concrete input. -/
theorem C7_extraction_fails_without_braces_witness :
    extractJsonCandidate ['h', 'i'] = none :=
  C7_extraction_fails_without_braces ['h', 'i'] (by decide) (by decide)

theorem getElemQ_append_lt {α : Type} (l t : List α) (i : Nat) (h : i < l.length) :
    (l ++ t)[i]? = l[i]? := by
  induction l generalizing i with
  | nil => simp at h
  | cons a l ih =>
    cases i with
    | zero => simp
    | succ i =>
      have hi : i < l.length := by simpa using h
      simp [ih i hi]

theorem getElemQ_append_ge {α : Type} (l t : List α) (i : Nat) (h : l.length ≤ i) :
    (l ++ t)[i]? = t[i - l.length]? := by
  induction l generalizing i with
  | nil => simp
  | cons a l ih =>
    cases i with
    | zero => simp at h
    | succ i =>
      have hi : l.length ≤ i := by simpa using h
      simpa using ih i hi

theorem findAnchorClear_found (anchor : Str) (P1 P2 : List Para) (a : Para)
    (ha : strContains a.text anchor = true)
    (hP1 : ∀ p ∈ P1, strContains p.text anchor = false) :
    findAnchorClear anchor (P1 ++ a :: P2)
      = some (P1 ++ { a with text := [] } :: P2) := by
  induction P1 with
  | nil => simp [findAnchorClear, ha]
  | cons p P1 ih =>
    have hp : strContains p.text anchor = false := hP1 p (List.mem_cons_self p P1)
    have ih2 := ih (fun q hq => hP1 q (List.mem_cons_of_mem p hq))
    simp [findAnchorClear, hp, ih2]

theorem findAnchorClear_none (anchor : Str) (l : List Para)
    (h : ∀ p ∈ l, strContains p.text anchor = false) :
    findAnchorClear anchor l = none := by
  induction l with
  | nil => rfl
  | cons p ps ih =>
    have hp : strContains p.text anchor = false := h p (List.mem_cons_self p ps)
    have ih2 := ih (fun q hq => h q (List.mem_cons_of_mem p hq))
    simp [findAnchorClear, hp, ih2]

/-- C8: for each section anchor, only the first paragraph containing it is used
(the scan stops there, clearing that paragraph and appending the section once,
no matter how many later paragraphs also hold the anchor); when no paragraph
holds the anchor the function returns `false` and the document is unchanged, so
the section is simply omitted (the caller merely warns and carries on). -/
theorem C8_anchor_first_match_and_missing :
    (∀ (doc : Doc) (mcqs : List McqItem) (P1 P2 : List Para) (a : Para),
      doc.paragraphs = P1 ++ a :: P2 →
      strContains a.text MCQ_ANCHOR = true →
      (∀ p ∈ P1, strContains p.text MCQ_ANCHOR = false) →
      inject_mcq_questions doc mcqs
        = ({ doc with
              paragraphs := (P1 ++ { a with text := [] } :: P2) ++ mcqInjection mcqs },
           true)) ∧
    (∀ (doc : Doc) (mcqs : List McqItem),
      (∀ p ∈ doc.paragraphs, strContains p.text MCQ_ANCHOR = false) →
      inject_mcq_questions doc mcqs = (doc, false)) ∧
    (∀ (doc : Doc) (saqs : List SaqItem) (P1 P2 : List Para) (a : Para),
      doc.paragraphs = P1 ++ a :: P2 →
      strContains a.text SAQ_ANCHOR = true →
      (∀ p ∈ P1, strContains p.text SAQ_ANCHOR = false) →
      inject_saq_questions doc saqs
        = ({ doc with
              paragraphs := (P1 ++ { a with text := [] } :: P2) ++ saqInjection saqs },
           true)) ∧
    (∀ (doc : Doc) (saqs : List SaqItem),
      (∀ p ∈ doc.paragraphs, strContains p.text SAQ_ANCHOR = false) →
      inject_saq_questions doc saqs = (doc, false)) := by
  refine ⟨?_, ?_, ?_, ?_⟩
  · intro doc mcqs P1 P2 a hdoc ha hP1
    simp [inject_mcq_questions, hdoc,
      findAnchorClear_found MCQ_ANCHOR P1 P2 a ha hP1]
  · intro doc mcqs h
    simp [inject_mcq_questions, findAnchorClear_none MCQ_ANCHOR doc.paragraphs h]
  · intro doc saqs P1 P2 a hdoc ha hP1
    simp [inject_saq_questions, hdoc,
      findAnchorClear_found SAQ_ANCHOR P1 P2 a ha hP1]
  · intro doc saqs h
    simp [inject_saq_questions, findAnchorClear_none SAQ_ANCHOR doc.paragraphs h]

/-- Witness for C8: a document whose second and third paragraphs both hold the
MCQ anchor only has its second paragraph cleared, and a document without the
SAQ anchor comes back unchanged with a `false` flag. -/
theorem C8_anchor_first_match_and_missing_witness :
    inject_mcq_questions
        ⟨[mkPara ['x'], mkPara MCQ_ANCHOR, mkPara MCQ_ANCHOR], []⟩ []
      = (⟨([mkPara ['x']] ++ { mkPara MCQ_ANCHOR with text := [] }
            :: [mkPara MCQ_ANCHOR]) ++ mcqInjection [], []⟩, true) ∧
    inject_saq_questions ⟨[mkPara ['x']], []⟩ [] = (⟨[mkPara ['x']], []⟩, false) := by
  constructor
  · exact C8_anchor_first_match_and_missing.1
      ⟨[mkPara ['x'], mkPara MCQ_ANCHOR, mkPara MCQ_ANCHOR], []⟩ []
      [mkPara ['x']] [mkPara MCQ_ANCHOR] (mkPara MCQ_ANCHOR)
      rfl (by decide) (by decide)
  · exact C8_anchor_first_match_and_missing.2.2.2
      ⟨[mkPara ['x']], []⟩ [] (by decide)

/-- C10: section injection only clears the first anchor paragraph in place and
appends the generated section at the end of the paragraph sequence: the first
`doc.paragraphs.length` paragraphs of the result are the original ones (with
only the anchor paragraph's text emptied), the appended tail is exactly the
generated section, every paragraph other than the anchor keeps its text and
position, and the tables are untouched. -/
theorem C10_injection_appends_at_end :
    (∀ (doc : Doc) (mcqs : List McqItem) (P1 P2 : List Para) (a : Para),
      doc.paragraphs = P1 ++ a :: P2 →
      strContains a.text MCQ_ANCHOR = true →
      (∀ p ∈ P1, strContains p.text MCQ_ANCHOR = false) →
      ((inject_mcq_questions doc mcqs).1.tables = doc.tables ∧
       (inject_mcq_questions doc mcqs).1.paragraphs
         = (P1 ++ { a with text := [] } :: P2) ++ mcqInjection mcqs ∧
       (∀ i : Nat, i ≠ P1.length →
         (P1 ++ { a with text := [] } :: P2)[i]? = doc.paragraphs[i]?) ∧
       (inject_mcq_questions doc mcqs).2 = true)) ∧
    (∀ (doc : Doc) (saqs : List SaqItem) (P1 P2 : List Para) (a : Para),
      doc.paragraphs = P1 ++ a :: P2 →
      strContains a.text SAQ_ANCHOR = true →
      (∀ p ∈ P1, strContains p.text SAQ_ANCHOR = false) →
      ((inject_saq_questions doc saqs).1.tables = doc.tables ∧
       (inject_saq_questions doc saqs).1.paragraphs
         = (P1 ++ { a with text := [] } :: P2) ++ saqInjection saqs ∧
       (∀ i : Nat, i ≠ P1.length →
         (P1 ++ { a with text := [] } :: P2)[i]? = doc.paragraphs[i]?) ∧
       (inject_saq_questions doc saqs).2 = true)) := by
  constructor
  · intro doc mcqs P1 P2 a hdoc ha hP1
    have hrw : inject_mcq_questions doc mcqs
        = ({ doc with
              paragraphs := (P1 ++ { a with text := [] } :: P2) ++ mcqInjection mcqs },
           true) := by
      simp [inject_mcq_questions, hdoc,
        findAnchorClear_found MCQ_ANCHOR P1 P2 a ha hP1]
    refine ⟨by rw [hrw], by rw [hrw], ?_, by rw [hrw]⟩
    intro i hi
    rw [hdoc]
    by_cases hlt : i < P1.length
    · rw [getElemQ_append_lt _ _ _ hlt, getElemQ_append_lt _ _ _ hlt]
    · have hge : P1.length ≤ i := Nat.le_of_not_lt hlt
      rw [getElemQ_append_ge _ _ _ hge, getElemQ_append_ge _ _ _ hge]
      obtain ⟨k, hk⟩ : ∃ k, i - P1.length = k + 1 :=
        ⟨i - P1.length - 1, by omega⟩
      rw [hk]
      simp
  · intro doc saqs P1 P2 a hdoc ha hP1
    have hrw : inject_saq_questions doc saqs
        = ({ doc with
              paragraphs := (P1 ++ { a with text := [] } :: P2) ++ saqInjection saqs },
           true) := by
      simp [inject_saq_questions, hdoc,
        findAnchorClear_found SAQ_ANCHOR P1 P2 a ha hP1]
    refine ⟨by rw [hrw], by rw [hrw], ?_, by rw [hrw]⟩
    intro i hi
    rw [hdoc]
    by_cases hlt : i < P1.length
    · rw [getElemQ_append_lt _ _ _ hlt, getElemQ_append_lt _ _ _ hlt]
    · have hge : P1.length ≤ i := Nat.le_of_not_lt hlt
      rw [getElemQ_append_ge _ _ _ hge, getElemQ_append_ge _ _ _ hge]
      obtain ⟨k, hk⟩ : ∃ k, i - P1.length = k + 1 :=
        ⟨i - P1.length - 1, by omega⟩
      rw [hk]
      simp

/-- Witness for C10: with an anchor between two ordinary paragraphs, the
injected section lands after all pre-existing paragraphs and the neighbours
keep their positions. -/
theorem C10_injection_appends_at_end_witness :
    (inject_mcq_questions
        ⟨[mkPara ['u'], mkPara MCQ_ANCHOR, mkPara ['v']], []⟩ []).1.paragraphs
      = ([mkPara ['u']] ++ { mkPara MCQ_ANCHOR with text := [] } :: [mkPara ['v']])
          ++ mcqInjection [] ∧
    ([mkPara ['u']] ++ { mkPara MCQ_ANCHOR with text := [] } :: [mkPara ['v']])[2]?
      = (⟨[mkPara ['u'], mkPara MCQ_ANCHOR, mkPara ['v']], []⟩ : Doc).paragraphs[2]? := by
  have h := C10_injection_appends_at_end.1
    ⟨[mkPara ['u'], mkPara MCQ_ANCHOR, mkPara ['v']], []⟩ []
    [mkPara ['u']] [mkPara ['v']] (mkPara MCQ_ANCHOR)
    rfl (by decide) (by decide)
  exact ⟨h.2.1, h.2.2.1 2 (by decide)⟩

/-- C2: with the MCQ anchor present, the assembled paragraph sequence carries,
after the pre-existing paragraphs (anchor cleared), the section header, the
instruction line, and then — for each of the N items in order — one question
block: a spacer, a paragraph reading `Question i+1` plus a newline plus the
item's question text, followed by one paragraph per option in the original
order.  In the concrete scenario (template holding only the MCQ anchor, one
MCQ `2+2?` with options A, B, C, D, zero SAQs) the injected section is exactly
one such block with the four option lines, and the SAQ success flag is
`false`. -/
theorem C2_mcq_question_blocks :
    (∀ (doc : Doc) (mcqs : List McqItem) (P1 P2 : List Para) (a : Para),
      doc.paragraphs = P1 ++ a :: P2 →
      strContains a.text MCQ_ANCHOR = true →
      (∀ p ∈ P1, strContains p.text MCQ_ANCHOR = false) →
      ((inject_mcq_questions doc mcqs).1.paragraphs
          = (P1 ++ { a with text := [] } :: P2)
            ++ mcqSectionHeader :: mcqInstructions ::
              (mcqs.enum.flatMap fun iq =>
                mkPara [] ::
                  mkPara ("Question ".toList ++ (Nat.repr (iq.1 + 1)).toList
                    ++ '\n' :: iq.2.question_text) ::
                  iq.2.options.map optionPara) ∧
        (inject_mcq_questions doc mcqs).2 = true)) ∧
    ((inject_mcq_questions ⟨[mkPara MCQ_ANCHOR], []⟩
        [{ question_text := "2+2?".toList,
           options := ["A".toList, "B".toList, "C".toList, "D".toList] }]).2 = true ∧
     (inject_saq_questions
        (inject_mcq_questions ⟨[mkPara MCQ_ANCHOR], []⟩
          [{ question_text := "2+2?".toList,
             options := ["A".toList, "B".toList, "C".toList, "D".toList] }]).1 []).2
        = false ∧
     (inject_saq_questions
        (inject_mcq_questions ⟨[mkPara MCQ_ANCHOR], []⟩
          [{ question_text := "2+2?".toList,
             options := ["A".toList, "B".toList, "C".toList, "D".toList] }]).1 []).1.paragraphs
        = [mkPara [], mcqSectionHeader, mcqInstructions, mkPara [],
           mkPara "Question 1\n2+2?".toList,
           optionPara "A".toList, optionPara "B".toList,
           optionPara "C".toList, optionPara "D".toList]) := by
  constructor
  · intro doc mcqs P1 P2 a hdoc ha hP1
    have hrw : inject_mcq_questions doc mcqs
        = ({ doc with
              paragraphs := (P1 ++ { a with text := [] } :: P2) ++ mcqInjection mcqs },
           true) := by
      simp [inject_mcq_questions, hdoc,
        findAnchorClear_found MCQ_ANCHOR P1 P2 a ha hP1]
    refine ⟨?_, by rw [hrw]⟩
    rw [hrw]
    simp only [mcqInjection, mcqBlock, mcqQuestionPara]
  · refine ⟨by decide, by decide, by decide⟩

/-- Witness for C2 at the concrete scenario document. -/
theorem C2_mcq_question_blocks_witness :
    (inject_mcq_questions ⟨[mkPara MCQ_ANCHOR], []⟩
        [{ question_text := "2+2?".toList,
           options := ["A".toList, "B".toList, "C".toList, "D".toList] }]).1.paragraphs
      = ([] ++ { mkPara MCQ_ANCHOR with text := [] } :: [])
        ++ mcqSectionHeader :: mcqInstructions ::
          ([{ question_text := "2+2?".toList,
              options := ["A".toList, "B".toList, "C".toList, "D".toList] }].enum.flatMap
            fun iq : Nat × McqItem =>
              mkPara [] ::
                mkPara ("Question ".toList ++ (Nat.repr (iq.1 + 1)).toList
                  ++ '\n' :: iq.2.question_text) ::
                iq.2.options.map optionPara) :=
  (C2_mcq_question_blocks.1 ⟨[mkPara MCQ_ANCHOR], []⟩
    [{ question_text := "2+2?".toList,
       options := ["A".toList, "B".toList, "C".toList, "D".toList] }]
    [] [] (mkPara MCQ_ANCHOR) rfl (by decide) (by decide)).1

/-- C6: for a short-answer item with mark value M (nonnegative, as produced by
the prompt contract), the paragraphs appended after that item's question
paragraph are exactly the blank-rule lines, 3 × M of them, each an
underscore-filled paragraph; at document level the injected SAQ section lists,
per item, the spacer, the question paragraph, and then its `marks * 3`
blank-rule lines. -/
theorem C6_saq_blank_rule_lines :
    (∀ (i : Nat) (q : SaqItem), 0 ≤ q.marks →
      ((saqBlock i q).drop 2 = List.replicate (q.marks * 3).toNat (mkPara BLANK_LINE) ∧
       (((saqBlock i q).drop 2).length : Int) = 3 * q.marks ∧
       ∀ p ∈ (saqBlock i q).drop 2, p.text = BLANK_LINE)) ∧
    (∀ (doc : Doc) (saqs : List SaqItem) (P1 P2 : List Para) (a : Para),
      doc.paragraphs = P1 ++ a :: P2 →
      strContains a.text SAQ_ANCHOR = true →
      (∀ p ∈ P1, strContains p.text SAQ_ANCHOR = false) →
      (inject_saq_questions doc saqs).1.paragraphs
        = (P1 ++ { a with text := [] } :: P2)
          ++ saqSectionHeader :: saqInstructions ::
            (saqs.enum.flatMap fun iq =>
              mkPara [] :: saqQuestionPara iq.1 iq.2 ::
                List.replicate (iq.2.marks * 3).toNat (mkPara BLANK_LINE))) := by
  constructor
  · intro i q hq
    refine ⟨rfl, ?_, ?_⟩
    · show ((List.replicate (q.marks * 3).toNat (mkPara BLANK_LINE)).length : Int)
        = 3 * q.marks
      rw [List.length_replicate]
      omega
    · intro p hp
      have : p = mkPara BLANK_LINE := List.eq_of_mem_replicate hp
      rw [this, mkPara]
  · intro doc saqs P1 P2 a hdoc ha hP1
    have hrw : inject_saq_questions doc saqs
        = ({ doc with
              paragraphs := (P1 ++ { a with text := [] } :: P2) ++ saqInjection saqs },
           true) := by
      simp [inject_saq_questions, hdoc,
        findAnchorClear_found SAQ_ANCHOR P1 P2 a ha hP1]
    rw [hrw]
    simp only [saqInjection, saqBlock]

/-- Witness for C6: an SAQ worth 2 marks yields exactly 6 blank-rule lines. -/
theorem C6_saq_blank_rule_lines_witness :
    (saqBlock 0 { question_text := "Explain.".toList, marks := 2 }).drop 2
      = List.replicate ((2 : Int) * 3).toNat (mkPara BLANK_LINE) ∧
    (((saqBlock 0 { question_text := "Explain.".toList, marks := 2 }).drop 2).length : Int)
      = 3 * 2 :=
  ⟨(C6_saq_blank_rule_lines.1 0 { question_text := "Explain.".toList, marks := 2 }
      (by decide)).1,
   (C6_saq_blank_rule_lines.1 0 { question_text := "Explain.".toList, marks := 2 }
      (by decide)).2.1⟩

theorem isPrefixOf_append_self (l t : Str) : l.isPrefixOf (l ++ t) = true := by
  induction l with
  | nil => simp [List.isPrefixOf]
  | cons a l ih => simpa [List.isPrefixOf] using ih

theorem drop_length_add {α : Type} (l t : List α) (i : Nat) :
    (l ++ t).drop (l.length + i) = t.drop i := by
  induction l with
  | nil => simp
  | cons a l ih => simpa [Nat.succ_add] using ih

theorem isPrefixOf_nil_eq_false {l : Str} (h : l ≠ []) : l.isPrefixOf [] = false := by
  cases l with
  | nil => exact absurd rfl h
  | cons a l => rfl

theorem pyReplaceFuel_no_occ (needle repl : Str) :
    ∀ (fuel : Nat) (hay : Str), hay.length ≤ fuel →
    (∀ i, needle.isPrefixOf (hay.drop i) = false) →
    pyReplaceFuel needle repl fuel hay = hay := by
  intro fuel
  induction fuel with
  | zero =>
    intro hay hf h
    cases hay with
    | nil => rfl
    | cons c rest => simp at hf
  | succ fuel ih =>
    intro hay hf h
    cases hay with
    | nil => rfl
    | cons c rest =>
      have h0 : needle.isPrefixOf (c :: rest) = false := by
        have := h 0
        simpa using this
      have hcond : ¬(needle ≠ [] ∧ needle.isPrefixOf (c :: rest) = true) := by
        rintro ⟨-, h2⟩
        rw [h0] at h2
        exact Bool.false_ne_true h2
      rw [pyReplaceFuel, if_neg hcond]
      have hrest : pyReplaceFuel needle repl fuel rest = rest := by
        refine ih rest (by simpa using Nat.le_of_succ_le_succ (by simpa using hf)) ?_
        intro i
        have := h (i + 1)
        simpa using this
      rw [hrest]

theorem pyReplaceFuel_single (needle repl : Str) (hn : needle ≠ []) :
    ∀ (pre post : Str) (fuel : Nat),
      (pre ++ needle ++ post).length ≤ fuel →
      (∀ i, needle.isPrefixOf ((pre ++ needle ++ post).drop i) = true → i = pre.length) →
      pyReplaceFuel needle repl fuel (pre ++ needle ++ post) = pre ++ repl ++ post := by
  intro pre
  induction pre with
  | nil =>
    intro post fuel hf huniq
    obtain ⟨n0, ns, rfl⟩ : ∃ n0 ns, needle = n0 :: ns := by
      cases needle with
      | nil => exact absurd rfl hn
      | cons a l => exact ⟨a, l, rfl⟩
    cases fuel with
    | zero => simp at hf
    | succ fuel =>
      have hpre : (n0 :: ns).isPrefixOf ((n0 :: ns) ++ post) = true :=
        isPrefixOf_append_self _ _
      have hstep :
          pyReplaceFuel (n0 :: ns) repl (fuel + 1) (([] : Str) ++ (n0 :: ns) ++ post)
            = repl ++ pyReplaceFuel (n0 :: ns) repl fuel
                (((n0 :: ns) ++ post).drop (n0 :: ns).length) := by
        simp only [List.nil_append, List.cons_append]
        rw [pyReplaceFuel, if_pos ⟨hn, by simpa using hpre⟩]
      rw [hstep, List.drop_left]
      have hpost : pyReplaceFuel (n0 :: ns) repl fuel post = post := by
        refine pyReplaceFuel_no_occ (n0 :: ns) repl fuel post ?_ ?_
        · have : (([] : Str) ++ (n0 :: ns) ++ post).length ≤ fuel + 1 := hf
          simp at this
          omega
        · intro i
          rcases Bool.eq_false_or_eq_true ((n0 :: ns).isPrefixOf (post.drop i)) with hb | hb
          · exfalso
            have hdd : (([] : Str) ++ (n0 :: ns) ++ post).drop ((n0 :: ns).length + i)
                = post.drop i := by
              rw [List.nil_append]
              exact drop_length_add (n0 :: ns) post i
            have := huniq ((n0 :: ns).length + i) (by rw [hdd]; exact hb)
            simp at this
          · exact hb
      rw [hpost]
      simp
  | cons c pre' ih =>
    intro post fuel hf huniq
    have hay_eq : (c :: pre') ++ needle ++ post = c :: (pre' ++ needle ++ post) := by
      simp
    cases fuel with
    | zero =>
      exfalso
      rw [hay_eq] at hf
      simp at hf
    | succ fuel =>
      have hnotpre : ¬(needle ≠ [] ∧ needle.isPrefixOf (c :: (pre' ++ needle ++ post)) = true) := by
        rintro ⟨-, h2⟩
        have h0 := huniq 0 (by simpa [hay_eq] using h2)
        simp at h0
      have hstep : pyReplaceFuel needle repl (fuel + 1) ((c :: pre') ++ needle ++ post)
          = c :: pyReplaceFuel needle repl fuel (pre' ++ needle ++ post) := by
        rw [hay_eq, pyReplaceFuel, if_neg hnotpre]
      rw [hstep]
      have htail : pyReplaceFuel needle repl fuel (pre' ++ needle ++ post)
          = pre' ++ repl ++ post := by
        refine ih post fuel ?_ ?_
        · rw [hay_eq] at hf
          simp at hf ⊢
          omega
        · intro i hpre
          have := huniq (i + 1) (by
            rw [hay_eq]
            simpa using hpre)
          simp at this
          omega
      rw [htail]
      simp

theorem pyReplace_single_occurrence (needle repl pre post : Str) (hn : needle ≠ [])
    (huniq : ∀ i, needle.isPrefixOf ((pre ++ needle ++ post).drop i) = true → i = pre.length) :
    pyReplace needle repl (pre ++ needle ++ post) = pre ++ repl ++ post :=
  pyReplaceFuel_single needle repl hn pre post _ (Nat.le_refl _) huniq

theorem strContains_of_occurrence (hay needle : Str) (i : Nat)
    (hi : i ≤ hay.length) (h : needle.isPrefixOf (hay.drop i) = true) :
    strContains hay needle = true := by
  rw [strContains, List.any_eq_true]
  exact ⟨i, List.mem_range.mpr (by omega), h⟩

theorem list_map_id_of_eq {α : Type} (f : α → α) (l : List α)
    (h : ∀ a ∈ l, f a = a) : l.map f = l := by
  induction l with
  | nil => rfl
  | cons a l ih =>
    rw [List.map_cons, h a (List.mem_cons_self a l),
      ih (fun b hb => h b (List.mem_cons_of_mem a hb))]

/-- C5: when a recognized placeholder key occurs exactly once in the whole
document — inside one paragraph, at one position — `find_and_replace` rewrites
that one paragraph's text from `pre ++ key ++ post` to `pre ++ value ++ post`
and every other paragraph (top-level or inside a table cell) is returned
byte-identical; the tables component is unchanged as a whole. -/
theorem C5_single_placeholder_replacement
    (doc : Doc) (key value : Str) (P1 P2 : List Para) (p : Para) (pre post : Str)
    (hn : key ≠ [])
    (hdoc : doc.paragraphs = P1 ++ p :: P2)
    (hp : p.text = pre ++ key ++ post)
    (huniq : ∀ i ∈ List.range (p.text.length + 1),
      key.isPrefixOf (p.text.drop i) = true → i = pre.length)
    (hP1 : ∀ q ∈ P1, strContains q.text key = false)
    (hP2 : ∀ q ∈ P2, strContains q.text key = false)
    (htab : ∀ t ∈ doc.tables, ∀ r ∈ t.rows, ∀ c ∈ r.cells, ∀ q ∈ c.paragraphs,
      strContains q.text key = false) :
    (find_and_replace doc key value).paragraphs
      = P1 ++ { p with
          text := pre ++ value ++ post,
          alignment := if key ∈ TITLE_PLACEHOLDERS then some Align.CENTER
                       else p.alignment } :: P2 ∧
    (find_and_replace doc key value).tables = doc.tables := by
  have hlen : p.text.length = pre.length + key.length + post.length := by
    rw [hp]
    simp
    omega
  have huniq' : ∀ i, key.isPrefixOf (p.text.drop i) = true → i = pre.length := by
    intro i hi
    by_cases hle : i ≤ p.text.length
    · exact huniq i (List.mem_range.mpr (by omega)) hi
    · exfalso
      have hnil : p.text.drop i = [] := by
        apply List.drop_eq_nil_of_le
        omega
      rw [hnil, isPrefixOf_nil_eq_false hn] at hi
      exact Bool.false_ne_true hi
  have hcont : strContains p.text key = true := by
    refine strContains_of_occurrence p.text key pre.length (by omega) ?_
    rw [hp, List.append_assoc, List.drop_left]
    exact isPrefixOf_append_self key post
  have hbody : replaceParaBody key value p
      = { p with
          text := pre ++ value ++ post,
          alignment := if key ∈ TITLE_PLACEHOLDERS then some Align.CENTER
                       else p.alignment } := by
    rw [replaceParaBody, if_pos (by rw [hcont])]
    have htext : pyReplace key value p.text = pre ++ value ++ post := by
      rw [hp]
      exact pyReplace_single_occurrence key value pre post hn (by rw [← hp]; exact huniq')
    rw [htext]
  constructor
  · rw [find_and_replace]
    show (doc.paragraphs.map (replaceParaBody key value)) = _
    rw [hdoc, List.map_append, List.map_cons, hbody,
      list_map_id_of_eq _ P1 (fun q hq => by
        rw [replaceParaBody, if_neg (by rw [hP1 q hq]; exact Bool.false_ne_true)]),
      list_map_id_of_eq _ P2 (fun q hq => by
        rw [replaceParaBody, if_neg (by rw [hP2 q hq]; exact Bool.false_ne_true)])]
  · rw [find_and_replace]
    show (doc.tables.map _) = doc.tables
    refine list_map_id_of_eq _ doc.tables (fun t ht => ?_)
    cases t with
    | mk rows =>
      have : rows.map (fun r => Row.mk (r.cells.map fun c =>
          Cell.mk (c.paragraphs.map (replaceParaCell key value)))) = rows := by
        refine list_map_id_of_eq _ rows (fun r hr => ?_)
        cases r with
        | mk cells =>
          have : cells.map (fun c =>
              Cell.mk (c.paragraphs.map (replaceParaCell key value))) = cells := by
            refine list_map_id_of_eq _ cells (fun c hc => ?_)
            cases c with
            | mk ps =>
              have : ps.map (replaceParaCell key value) = ps := by
                refine list_map_id_of_eq _ ps (fun q hq => ?_)
                rw [replaceParaCell, if_neg (by
                  rw [htab (Table.mk rows) ht (Row.mk cells) hr (Cell.mk ps) hc q hq]
                  exact Bool.false_ne_true)]
              simpa using this
          simpa using this
      simpa using this

/-- Witness for C5: a three-paragraph document where the YEAR placeholder
occurs exactly once, in the middle paragraph. -/
theorem C5_single_placeholder_replacement_witness :
    (find_and_replace
        ⟨[mkPara ['z'], mkPara ('a' :: (braced "YEAR".toList ++ ['b'])), mkPara ['w']], []⟩
        (braced "YEAR".toList) "2025".toList).paragraphs
      = [mkPara ['z']]
        ++ { mkPara ('a' :: (braced "YEAR".toList ++ ['b'])) with
              text := ['a'] ++ "2025".toList ++ ['b'],
              alignment :=
                if braced "YEAR".toList ∈ TITLE_PLACEHOLDERS then some Align.CENTER
                else (mkPara ('a' :: (braced "YEAR".toList ++ ['b']))).alignment }
        :: [mkPara ['w']] ∧
    (find_and_replace
        ⟨[mkPara ['z'], mkPara ('a' :: (braced "YEAR".toList ++ ['b'])), mkPara ['w']], []⟩
        (braced "YEAR".toList) "2025".toList).tables
      = (⟨[mkPara ['z'], mkPara ('a' :: (braced "YEAR".toList ++ ['b'])), mkPara ['w']], []⟩ : Doc).tables :=
  C5_single_placeholder_replacement
    ⟨[mkPara ['z'], mkPara ('a' :: (braced "YEAR".toList ++ ['b'])), mkPara ['w']], []⟩
    (braced "YEAR".toList) "2025".toList
    [mkPara ['z']] [mkPara ['w']]
    (mkPara ('a' :: (braced "YEAR".toList ++ ['b'])))
    ['a'] ['b']
    (by decide) rfl (by decide) (by decide) (by decide) (by decide) (by decide)

theorem list_map_congr {α β : Type} (f g : α → β) (l : List α)
    (h : ∀ a ∈ l, f a = g a) : l.map f = l.map g := by
  induction l with
  | nil => rfl
  | cons a l ih =>
    rw [List.map_cons, List.map_cons, h a (List.mem_cons_self a l),
      ih (fun b hb => h b (List.mem_cons_of_mem a hb))]

theorem getElemQ_map {α β : Type} (f : α → β) (l : List α) (i : Nat) :
    (l.map f)[i]? = (l[i]?).map f := by
  induction l generalizing i with
  | nil => simp
  | cons a l ih =>
    cases i with
    | zero => simp
    | succ i => simpa using ih i

theorem mainReplacePara_skip (R : List (Str × Str)) (p : Para)
    (h : ∀ kv ∈ R, strContains p.text kv.1 = false) :
    R.foldl mainReplaceStep p = p := by
  induction R with
  | nil => rfl
  | cons kv R ih =>
    have hkv := h kv (List.mem_cons_self kv R)
    have hstep : mainReplaceStep p kv = p := by
      rw [mainReplaceStep, if_neg (by rw [hkv]; exact Bool.false_ne_true)]
    rw [List.foldl_cons, hstep]
    exact ih (fun kv2 h2 => h kv2 (List.mem_cons_of_mem kv h2))

theorem mainReplacePara_center_absorb (R : List (Str × Str)) :
    ∀ (p : Para), p.alignment = some Align.CENTER →
    (R.foldl mainReplaceStep p).alignment = some Align.CENTER := by
  induction R with
  | nil => intro p hp; exact hp
  | cons kv R ih =>
    intro p hp
    rw [List.foldl_cons]
    apply ih
    rw [mainReplaceStep]
    by_cases hc : strContains p.text kv.1 = true
    · rw [if_pos hc]
      by_cases ht : kv.1 ∈ MAIN_TITLE_PLACEHOLDERS
      · simp [ht]
      · simp [ht, hp]
    · rw [if_neg hc]
      exact hp

theorem mainReplaceCellPara_alignment (R : List (Str × Str)) (p : Para) :
    (mainReplaceCellPara R p).alignment = p.alignment := by
  rw [mainReplaceCellPara]
  induction R generalizing p with
  | nil => rfl
  | cons kv R ih =>
    rw [List.foldl_cons]
    rw [ih]
    rw [mainReplaceCellStep]
    by_cases hc : strContains p.text kv.1 = true
    · rw [if_pos hc]
    · rw [if_neg hc]

/-- C9 (amended): during `main`'s placeholder-substitution pass, a top-level
text block that held a title-page placeholder (and that no earlier key of the
replacement table touches) ends up with centered alignment re-applied; but text
blocks nested inside grid (table) cells only get their text replaced — their
alignment is never modified. -/
theorem C9_title_centering_amended :
    (∀ (repl : List (Str × Str)) (doc : Doc) (i : Nat) (p : Para)
        (R1 R2 : List (Str × Str)) (k v : Str),
      doc.paragraphs[i]? = some p →
      repl = R1 ++ (k, v) :: R2 →
      k ∈ MAIN_TITLE_PLACEHOLDERS →
      strContains p.text k = true →
      (∀ kv ∈ R1, strContains p.text kv.1 = false) →
      ∃ q, (substitute_placeholders repl doc).paragraphs[i]? = some q ∧
        q.alignment = some Align.CENTER) ∧
    (∀ (repl : List (Str × Str)) (doc : Doc),
      tableAlignments (substitute_placeholders repl doc) = tableAlignments doc) := by
  constructor
  · intro repl doc i p R1 R2 k v hip hrepl hk hc hR1
    refine ⟨mainReplacePara repl p, ?_, ?_⟩
    · rw [substitute_placeholders]
      show (doc.paragraphs.map (mainReplacePara repl))[i]? = _
      rw [getElemQ_map, hip]
      rfl
    · rw [mainReplacePara, hrepl, List.foldl_append, mainReplacePara_skip R1 p hR1,
        List.foldl_cons]
      have hstep : (mainReplaceStep p (k, v)).alignment = some Align.CENTER := by
        rw [mainReplaceStep]
        rw [if_pos (show strContains p.text (k, v).1 = true from hc)]
        show (if (k, v).1 ∈ MAIN_TITLE_PLACEHOLDERS then some Align.CENTER
              else p.alignment) = some Align.CENTER
        simp [hk]
      exact mainReplacePara_center_absorb R2 _ hstep
  · intro repl doc
    have key : ∀ ps : List Para,
        (ps.map (mainReplaceCellPara repl)).map (fun p => p.alignment)
          = ps.map (fun p => p.alignment) := by
      intro ps
      rw [List.map_map]
      exact list_map_congr _ _ ps (fun p _ => mainReplaceCellPara_alignment repl p)
    simp only [tableAlignments, substitute_placeholders, List.map_map]
    refine list_map_congr _ _ doc.tables (fun t _ => ?_)
    simp only [Function.comp]
    rw [List.map_map]
    refine list_map_congr _ _ t.rows (fun r _ => ?_)
    simp only [Function.comp]
    rw [List.map_map]
    refine list_map_congr _ _ r.cells (fun c _ => ?_)
    simp only [Function.comp]
    exact key c.paragraphs

/-- C9 fails as stated: a table-cell text block holding the YEAR title
placeholder has its text replaced by the substitution pass but does not get
centered alignment — the table loops never touch alignment. -/
theorem C9_counterexample :
    strContains (Para.mk (braced "YEAR".toList) none none).text (braced "YEAR".toList)
      = true ∧
    braced "YEAR".toList ∈ MAIN_TITLE_PLACEHOLDERS ∧
    (substitute_placeholders [(braced "YEAR".toList, "2025".toList)]
        ⟨[], [Table.mk [Row.mk [Cell.mk [Para.mk (braced "YEAR".toList) none none]]]]⟩).tables
      = [Table.mk [Row.mk [Cell.mk [Para.mk "2025".toList none none]]]] ∧
    (none : Option Align) ≠ some Align.CENTER := by
  refine ⟨by decide, by decide, by decide, by decide⟩

/-- Witness for the amended C9: a top-level paragraph holding the YEAR
placeholder is centered after substitution. -/
theorem C9_title_centering_amended_witness :
    ∃ q, (substitute_placeholders [(braced "YEAR".toList, "2025".toList)]
        ⟨[Para.mk (braced "YEAR".toList) none none], []⟩).paragraphs[0]? = some q ∧
      q.alignment = some Align.CENTER :=
  C9_title_centering_amended.1 [(braced "YEAR".toList, "2025".toList)]
    ⟨[Para.mk (braced "YEAR".toList) none none], []⟩ 0
    (Para.mk (braced "YEAR".toList) none none)
    [] [] (braced "YEAR".toList) "2025".toList
    rfl rfl (by decide) (by decide) (by decide)

theorem lookupCount_setCount_self (l : List (Str × Int)) (m : Str) (v : Int) :
    lookupCount (setCount l m v) m = some v := by
  induction l with
  | nil => simp [setCount, lookupCount]
  | cons kv l ih =>
    obtain ⟨k, x⟩ := kv
    by_cases hk : k = m
    · simp [setCount, hk, lookupCount]
    · simp [setCount, hk, lookupCount, ih]

theorem lookupCount_setCount_other (l : List (Str × Int)) (m m2 : Str) (v : Int)
    (h : m2 ≠ m) : lookupCount (setCount l m v) m2 = lookupCount l m2 := by
  induction l with
  | nil =>
    simp [setCount, lookupCount, Ne.symm h]
  | cons kv l ih =>
    obtain ⟨k, x⟩ := kv
    by_cases hk : k = m
    · subst hk
      have hne : ¬k = m2 := Ne.symm h
      simp [setCount, lookupCount, hne]
    · simp [setCount, hk, lookupCount, ih]

theorem lookupCount_append_right (l : List (Str × Int)) (m : Str) (v : Int)
    (h : lookupCount l m = none) : lookupCount (l ++ [(m, v)]) m = some v := by
  induction l with
  | nil => simp [lookupCount]
  | cons kv l ih =>
    obtain ⟨k, x⟩ := kv
    by_cases hk : k = m
    · rw [lookupCount, if_pos hk] at h
      exact absurd h (by simp)
    · rw [lookupCount, if_neg hk] at h
      simpa [lookupCount, hk] using ih h

theorem lookupCount_append_other (l : List (Str × Int)) (m m2 : Str) (v : Int)
    (h : m2 ≠ m) : lookupCount (l ++ [(m, v)]) m2 = lookupCount l m2 := by
  induction l with
  | nil => simp [lookupCount, Ne.symm h]
  | cons kv l ih =>
    obtain ⟨k, x⟩ := kv
    by_cases hk : k = m2
    · simp [lookupCount, hk]
    · simp [lookupCount, hk, ih]

/-- C3: loading the usage ledger on a day other than the stored date returns
the default data (all three per-model counters at zero) and writes that reset
file to disk within the load itself — hence before any later counter increment
can run; an absent file, or one that fails to parse as JSON, is likewise
recreated with the default contents. -/
theorem C3_ledger_daily_reset (today : Str) :
    (∀ data : StoredUsage, data.date ≠ some today →
      load_from_file USAGE_FILENAME today (DEFAULT_USAGE today) (.stored data)
        = (DEFAULT_USAGE today, [(USAGE_FILENAME, DEFAULT_USAGE today)])) ∧
    (∀ m ∈ ((DEFAULT_USAGE today).counts.getD []), m.2 = 0) ∧
    load_from_file USAGE_FILENAME today (DEFAULT_USAGE today) .absent
      = (DEFAULT_USAGE today, [(USAGE_FILENAME, DEFAULT_USAGE today)]) ∧
    load_from_file USAGE_FILENAME today (DEFAULT_USAGE today) .corrupt
      = (DEFAULT_USAGE today, [(USAGE_FILENAME, DEFAULT_USAGE today)]) := by
  refine ⟨?_, ?_, rfl, rfl⟩
  · intro data hd
    rw [load_from_file, if_pos ⟨rfl, hd⟩]
  · intro m hm
    simp [DEFAULT_USAGE] at hm
    rcases hm with h | h | h
    · rw [h]
    · rw [h]
    · rw [h]

/-- Witness for C3: a ledger dated yesterday is reset and persisted when
loaded today. -/
theorem C3_ledger_daily_reset_witness :
    load_from_file USAGE_FILENAME "2025-01-02".toList (DEFAULT_USAGE "2025-01-02".toList)
        (.stored { date := some "2025-01-01".toList,
                   counts := some [("gemini-2.5-pro".toList, 7)],
                   count := none })
      = (DEFAULT_USAGE "2025-01-02".toList,
         [(USAGE_FILENAME, DEFAULT_USAGE "2025-01-02".toList)]) :=
  (C3_ledger_daily_reset "2025-01-02".toList).1
    { date := some "2025-01-01".toList,
      counts := some [("gemini-2.5-pro".toList, 7)],
      count := none }
    (by decide)

/-- C4: a successful call returns the text, increments exactly the used
model's counter by one (creating it at zero first when missing), leaves every
other model's counter unchanged, and performs exactly one immediate ledger
write holding the updated counts; a failed call — missing API key, or the
provider raising — returns `None` with the counts untouched and no write. -/
theorem C4_increment_exactly_once :
    (∀ (key text model_name : Str) (counts : List (Str × Int)),
      (call_gemini_api (some key) (.ok text) model_name counts).1 = some text ∧
      lookupCount (call_gemini_api (some key) (.ok text) model_name counts).2.1 model_name
        = some ((lookupCount counts model_name).getD 0 + 1) ∧
      (∀ m, m ≠ model_name →
        lookupCount (call_gemini_api (some key) (.ok text) model_name counts).2.1 m
          = lookupCount counts m) ∧
      (call_gemini_api (some key) (.ok text) model_name counts).2.2
        = [(call_gemini_api (some key) (.ok text) model_name counts).2.1]) ∧
    (∀ (outcome : ProviderOutcome) (model_name : Str) (counts : List (Str × Int)),
      call_gemini_api none outcome model_name counts = (none, counts, [])) ∧
    (∀ (key model_name : Str) (counts : List (Str × Int)),
      call_gemini_api (some key) .error model_name counts = (none, counts, [])) := by
  refine ⟨?_, ?_, ?_⟩
  · intro key text model_name counts
    rcases hl : lookupCount counts model_name with _ | c
    · have e : call_gemini_api (some key) (.ok text) model_name counts
          = (some text, setCount (counts ++ [(model_name, 0)]) model_name 1,
             [setCount (counts ++ [(model_name, 0)]) model_name 1]) := by
        simp [call_gemini_api, hl, lookupCount_append_right counts model_name 0 hl]
      refine ⟨by rw [e], ?_, ?_, by rw [e]⟩
      · rw [e]
        show lookupCount (setCount (counts ++ [(model_name, 0)]) model_name 1) model_name
          = some ((Option.none).getD 0 + 1)
        rw [lookupCount_setCount_self]
        simp
      · intro m hm
        rw [e]
        show lookupCount (setCount (counts ++ [(model_name, 0)]) model_name 1) m
          = lookupCount counts m
        rw [lookupCount_setCount_other _ _ _ _ hm,
          lookupCount_append_other _ _ _ _ hm]
    · have e : call_gemini_api (some key) (.ok text) model_name counts
          = (some text, setCount counts model_name (c + 1),
             [setCount counts model_name (c + 1)]) := by
        simp [call_gemini_api, hl]
      refine ⟨by rw [e], ?_, ?_, by rw [e]⟩
      · rw [e]
        show lookupCount (setCount counts model_name (c + 1)) model_name
          = some ((some c).getD 0 + 1)
        rw [lookupCount_setCount_self]
        simp
      · intro m hm
        rw [e]
        show lookupCount (setCount counts model_name (c + 1)) m = lookupCount counts m
        rw [lookupCount_setCount_other _ _ _ _ hm]
  · intro outcome model_name counts
    rfl
  · intro key model_name counts
    rfl

/-- Witness for C4: one successful call on a ledger that lacks the used model
creates that counter at one, writes the updated ledger once, and leaves the
other model's counter at its old value. -/
theorem C4_increment_exactly_once_witness :
    lookupCount (call_gemini_api (some "key".toList) (.ok "hi".toList)
        "gemini-2.5-pro".toList [("gemini-2.5-flash".toList, 4)]).2.1
        "gemini-2.5-pro".toList
      = some ((lookupCount [("gemini-2.5-flash".toList, 4)] "gemini-2.5-pro".toList).getD 0 + 1) ∧
    lookupCount (call_gemini_api (some "key".toList) (.ok "hi".toList)
        "gemini-2.5-pro".toList [("gemini-2.5-flash".toList, 4)]).2.1
        "gemini-2.5-flash".toList
      = lookupCount [("gemini-2.5-flash".toList, 4)] "gemini-2.5-flash".toList ∧
    (call_gemini_api (some "key".toList) (.ok "hi".toList)
        "gemini-2.5-pro".toList [("gemini-2.5-flash".toList, 4)]).2.2
      = [(call_gemini_api (some "key".toList) (.ok "hi".toList)
          "gemini-2.5-pro".toList [("gemini-2.5-flash".toList, 4)]).2.1] := by
  have h := C4_increment_exactly_once.1 "key".toList "hi".toList
    "gemini-2.5-pro".toList [("gemini-2.5-flash".toList, 4)]
  exact ⟨h.2.1, h.2.2.1 "gemini-2.5-flash".toList (by decide), h.2.2.2⟩
